import Mathlib

/-!
Verification of the fixed-point math, price/amount conversion math and
tick-sequence traversal of the whirlpool repository, against its
natural-language specification.

Machine integers (`u64`, `u128`) are embedded as `Nat` with explicit
`2 ^ 64` / `2 ^ 128` bounds where overflow matters.  Fallible Rust
functions returning `Result<T, ErrorCode>` are embedded as
`Except ErrorCode Nat`.
-/

/-- Error codes referenced by the math and traversal modules.  The file
`errors.rs` itself is not among the provided sources; the constructor
names are the ones used at the call sites in `bit_math.rs`,
`token_math.rs` and `swap_tick_sequence.rs`, plus the narrowing-cast
error of the 256-bit helper (spec §4.1). -/
inductive ErrorCode where
  | DivideByZero
  | MulDivOverflow
  | MultiplicationShiftRightOverflow
  | MultiplicationOverflow
  | NumberCastError
  | TokenMinSubceeded
  | TokenMaxExceeded
  | SqrtPriceOutOfBounds
  | TickArrayIndexOutofBounds
  | TickArraySequenceInvalidIndex
  | TickNotFound
  | InvalidTickArraySequence
  deriving DecidableEq, Repr

deriving instance DecidableEq for Except

/-- Modulus of the Rust `u128` type. -/
def U128_MOD : Nat := 2 ^ 128

/-- Modulus of the modelled 256-bit helper type. -/
def U256_MOD : Nat := 2 ^ 256

/-- Rust `u64::MAX`. -/
def U64_MAX : Nat := 2 ^ 64 - 1

/-- `bit_math.rs::Q64_RESOLUTION`. -/
def Q64_RESOLUTION : Nat := 64

/-- `bit_math.rs::Q64_MASK`. -/
def Q64_MASK : Nat := 0xFFFFFFFFFFFFFFFF

/-- Rust `u128::checked_mul`: `none` exactly when the mathematical
product does not fit in 128 bits. -/
def u128_checked_mul (a b : Nat) : Option Nat :=
  if a * b < U128_MOD then some (a * b) else none

/-- Rust `u128::checked_add`: `none` exactly when the sum does not fit
in 128 bits. -/
def u128_checked_add (a b : Nat) : Option Nat :=
  if a + b < U128_MOD then some (a + b) else none

/-- Rust `u128::checked_sub`: `none` exactly when the subtraction would
underflow below zero. -/
def u128_checked_sub (a b : Nat) : Option Nat :=
  if b ≤ a then some (a - b) else none

namespace U256Muldiv

/-- Modelled from the spec: the 256-bit helper type (`U256Muldiv`, not
among the provided sources) is represented by its value as a natural
number below `2 ^ 256`; `new hi lo` packs two 128-bit halves. -/
def new (hi lo : Nat) : Nat := hi * U128_MOD + lo

/-- Modelled from the spec: addition of the 256-bit helper type.  All
uses in the provided sources stay strictly below `2 ^ 256`, so it is
modelled as exact addition. -/
def add (a b : Nat) : Nat := a + b

/-- Modelled from the spec: subtraction of the 256-bit helper type; the
provided sources only subtract after guarding `b ≤ a`. -/
def sub (a b : Nat) : Nat := a - b

/-- Modelled from the spec: comparison (`lte`) of the 256-bit helper. -/
def lte (a b : Nat) : Bool := decide (a ≤ b)

/-- Modelled from the spec: zero test of the 256-bit helper. -/
abbrev is_zero (a : Nat) : Prop := a = 0

/-- Modelled from the spec: shift left by one 64-bit word. -/
def shift_word_left (a : Nat) : Nat := a * 2 ^ 64 % U256_MOD

/-- Modelled from the spec: word-shift that fails (returns `none`) when
the shifted value does not fit in 256 bits. -/
def checked_shift_word_left (a : Nat) : Option Nat :=
  if a * 2 ^ 64 < U256_MOD then some (a * 2 ^ 64) else none

/-- Modelled from the spec: 256-bit division with remainder.  The
boolean flag mirrors the Rust signature and does not change the
quotient/remainder pair. -/
def div (n d : Nat) (_round_up : Bool) : Nat × Nat := (n / d, n % d)

/-- Modelled from the spec: narrowing conversion back to 128 bits that
fails if the value overflows. -/
def try_into_u128 (a : Nat) : Except ErrorCode Nat :=
  if a < U128_MOD then .ok a else .error .NumberCastError

end U256Muldiv

/-- Modelled from the spec: full 256-bit product of two 128-bit values
(`mul_u256`, not among the provided sources). -/
def mul_u256 (a b : Nat) : Nat := a * b

/-- `bit_math.rs::checked_mul_div_round_up_if`. -/
def checked_mul_div_round_up_if (n0 n1 d : Nat) (round_up : Bool) :
    Except ErrorCode Nat :=
  if d = 0 then .error .DivideByZero
  else
    match u128_checked_mul n0 n1 with
    | none => .error .MulDivOverflow
    | some p =>
      let n := p / d
      .ok (if round_up ∧ 0 < p % d then n + 1 else n)

/-- `bit_math.rs::checked_mul_div`. -/
def checked_mul_div (n0 n1 d : Nat) : Except ErrorCode Nat :=
  checked_mul_div_round_up_if n0 n1 d false

/-- `bit_math.rs::checked_mul_div_round_up`. -/
def checked_mul_div_round_up (n0 n1 d : Nat) : Except ErrorCode Nat :=
  checked_mul_div_round_up_if n0 n1 d true

/-- `bit_math.rs::checked_mul_shift_right_round_up_if`.  The Rust cast
`(p >> 64) as u64` is lossless because `p < 2 ^ 128`. -/
def checked_mul_shift_right_round_up_if (n0 n1 : Nat) (round_up : Bool) :
    Except ErrorCode Nat :=
  if n0 = 0 ∨ n1 = 0 then .ok 0
  else
    match u128_checked_mul n0 n1 with
    | none => .error .MultiplicationShiftRightOverflow
    | some p =>
      if round_up ∧ 0 < p &&& Q64_MASK then
        if p >>> Q64_RESOLUTION = U64_MAX then .error .MultiplicationOverflow
        else .ok (p >>> Q64_RESOLUTION + 1)
      else .ok (p >>> Q64_RESOLUTION)

/-- `bit_math.rs::checked_mul_shift_right`. -/
def checked_mul_shift_right (n0 n1 : Nat) : Except ErrorCode Nat :=
  checked_mul_shift_right_round_up_if n0 n1 false

/-- `bit_math.rs::div_round_up_if`. -/
def div_round_up_if (n d : Nat) (round_up : Bool) : Except ErrorCode Nat :=
  if d = 0 then .error .DivideByZero
  else .ok (if round_up ∧ 0 < n % d then n / d + 1 else n / d)

/-- `bit_math.rs::div_round_up`. -/
def div_round_up (n d : Nat) : Except ErrorCode Nat := div_round_up_if n d true

/-- `bit_math.rs::div_round_up_if_u256`. -/
def div_round_up_if_u256 (n d : Nat) (round_up : Bool) : Except ErrorCode Nat :=
  let q := (U256Muldiv.div n d round_up).1
  let r := (U256Muldiv.div n d round_up).2
  if round_up ∧ ¬ U256Muldiv.is_zero r then
    U256Muldiv.try_into_u128 (U256Muldiv.add q (U256Muldiv.new 0 1))
  else
    U256Muldiv.try_into_u128 q

/-- Modelled from the spec: the pool's global minimum representable
square-root price (`MIN_SQRT_PRICE_X64`, not among the provided
sources); the spec names it without giving its numeric value, taken
here as the canonical Q64.64 lower bound. -/
def MIN_SQRT_PRICE_X64 : Nat := 4295048016

/-- Modelled from the spec: the pool's global maximum representable
square-root price (`MAX_SQRT_PRICE_X64`, not among the provided
sources). -/
def MAX_SQRT_PRICE_X64 : Nat := 79226673515401279992447579055

/-- `token_math.rs::increasing_price_order`. -/
def increasing_price_order (sqrt_price_0 sqrt_price_1 : Nat) : Nat × Nat :=
  if sqrt_price_0 > sqrt_price_1 then (sqrt_price_1, sqrt_price_0)
  else (sqrt_price_0, sqrt_price_1)

/-- `token_math.rs::get_amount_delta_a`. -/
def get_amount_delta_a (sqrt_price_0 sqrt_price_1 liquidity : Nat)
    (round_up : Bool) : Except ErrorCode Nat :=
  let lower := (increasing_price_order sqrt_price_0 sqrt_price_1).1
  let upper := (increasing_price_order sqrt_price_0 sqrt_price_1).2
  let sqrt_price_diff := upper - lower
  match U256Muldiv.checked_shift_word_left (mul_u256 liquidity sqrt_price_diff) with
  | none => .error .MultiplicationOverflow
  | some numerator =>
    let denominator := mul_u256 upper lower
    let q := (U256Muldiv.div numerator denominator round_up).1
    let r := (U256Muldiv.div numerator denominator round_up).2
    match (if round_up ∧ ¬ U256Muldiv.is_zero r then
            U256Muldiv.try_into_u128 (U256Muldiv.add q (U256Muldiv.new 0 1))
          else U256Muldiv.try_into_u128 q) with
    | .error e => .error e
    | .ok result =>
      if result > U64_MAX then .error .TokenMaxExceeded
      else .ok result

/-- `token_math.rs::get_amount_delta_b`. -/
def get_amount_delta_b (sqrt_price_0 sqrt_price_1 liquidity : Nat)
    (round_up : Bool) : Except ErrorCode Nat :=
  let price_lower := (increasing_price_order sqrt_price_0 sqrt_price_1).1
  let price_upper := (increasing_price_order sqrt_price_0 sqrt_price_1).2
  checked_mul_shift_right_round_up_if liquidity (price_upper - price_lower) round_up

/-- `token_math.rs::get_next_sqrt_price_from_a_round_up`. -/
def get_next_sqrt_price_from_a_round_up (sqrt_price liquidity amount : Nat)
    (amount_specified_is_input : Bool) : Except ErrorCode Nat :=
  if amount = 0 then .ok sqrt_price
  else
    let product := mul_u256 sqrt_price amount
    match U256Muldiv.checked_shift_word_left (mul_u256 liquidity sqrt_price) with
    | none => .error .MultiplicationOverflow
    | some numerator =>
      let liquidity_shift_left := U256Muldiv.shift_word_left (U256Muldiv.new 0 liquidity)
      if ¬ amount_specified_is_input ∧ U256Muldiv.lte liquidity_shift_left product then
        .error .DivideByZero
      else
        let denominator :=
          if amount_specified_is_input then U256Muldiv.add liquidity_shift_left product
          else U256Muldiv.sub liquidity_shift_left product
        match div_round_up_if_u256 numerator denominator true with
        | .error e => .error e
        | .ok price =>
          if price < MIN_SQRT_PRICE_X64 then .error .TokenMinSubceeded
          else if price > MAX_SQRT_PRICE_X64 then .error .TokenMaxExceeded
          else .ok price

/-- `token_math.rs::get_next_sqrt_price_from_b_round_down`. -/
def get_next_sqrt_price_from_b_round_down (sqrt_price liquidity amount : Nat)
    (amount_specified_is_input : Bool) : Except ErrorCode Nat :=
  let amount_x64 := amount <<< Q64_RESOLUTION
  match div_round_up_if amount_x64 liquidity (!amount_specified_is_input) with
  | .error e => .error e
  | .ok delta =>
    if amount_specified_is_input then
      match u128_checked_add sqrt_price delta with
      | some v => .ok v
      | none => .error .SqrtPriceOutOfBounds
    else
      match u128_checked_sub sqrt_price delta with
      | some v => .ok v
      | none => .error .SqrtPriceOutOfBounds

/-- `token_math.rs::get_next_sqrt_price`. -/
def get_next_sqrt_price (sqrt_price liquidity amount : Nat)
    (amount_specified_is_input a_to_b : Bool) : Except ErrorCode Nat :=
  if amount_specified_is_input = a_to_b then
    get_next_sqrt_price_from_a_round_up sqrt_price liquidity amount
      amount_specified_is_input
  else
    get_next_sqrt_price_from_b_round_down sqrt_price liquidity amount
      amount_specified_is_input

/-- Division rounded up when the flag is set; the mathematical reading
used on the specification side of the theorems below. -/
def ceil_div_if (n d : Nat) (round_up : Bool) : Nat :=
  if round_up ∧ 0 < n % d then n / d + 1 else n / d

/-- Characterization of `checked_mul_div_round_up_if`: the product is
computed with `u128::checked_mul`, so the call fails `MulDivOverflow`
exactly when `n0 * n1` does not fit in 128 bits, regardless of the
final quotient. -/
theorem checked_mul_div_round_up_if_eq (n0 n1 d : Nat) (ru : Bool) :
    checked_mul_div_round_up_if n0 n1 d ru =
      if d = 0 then .error .DivideByZero
      else if 2 ^ 128 ≤ n0 * n1 then .error .MulDivOverflow
      else .ok (ceil_div_if (n0 * n1) d ru) := by
  unfold checked_mul_div_round_up_if u128_checked_mul
  by_cases hd : d = 0
  · rw [if_pos hd, if_pos hd]
  · rw [if_neg hd, if_neg hd]
    by_cases hp : n0 * n1 < 2 ^ 128
    · rw [if_pos (show n0 * n1 < U128_MOD from hp), if_neg (Nat.not_le.mpr hp)]
      rfl
    · rw [if_neg (show ¬ n0 * n1 < U128_MOD from hp), if_pos (Nat.not_lt.mp hp)]

/-- Characterization of `checked_mul_shift_right_round_up_if` in terms
of the mathematical product: the returned value is
`⌊n0 * n1 / 2 ^ 64⌋`, incremented by one when rounding up and the 64
discarded low bits are nonzero. -/
theorem checked_mul_shift_right_round_up_if_eq (n0 n1 : Nat) (ru : Bool) :
    checked_mul_shift_right_round_up_if n0 n1 ru =
      if 2 ^ 128 ≤ n0 * n1 then .error .MultiplicationShiftRightOverflow
      else if ru ∧ 0 < n0 * n1 % 2 ^ 64 ∧ n0 * n1 / 2 ^ 64 = U64_MAX then
        .error .MultiplicationOverflow
      else .ok (if ru ∧ 0 < n0 * n1 % 2 ^ 64 then n0 * n1 / 2 ^ 64 + 1
                else n0 * n1 / 2 ^ 64) := by
  unfold checked_mul_shift_right_round_up_if u128_checked_mul
  by_cases h0 : n0 = 0 ∨ n1 = 0
  · have hp : n0 * n1 = 0 := by rcases h0 with h | h <;> simp [h]
    rw [if_pos h0]
    simp [hp]
  · have hmask : (n0 * n1) &&& Q64_MASK = (n0 * n1) % 2 ^ 64 := by
      have h := Nat.and_pow_two_sub_one_eq_mod (n0 * n1) 64
      rw [show Q64_MASK = 2 ^ 64 - 1 from rfl]
      exact h
    have hshift : (n0 * n1) >>> Q64_RESOLUTION = (n0 * n1) / 2 ^ 64 := by
      exact Nat.shiftRight_eq_div_pow (n0 * n1) 64
    rw [if_neg h0]
    by_cases hp : n0 * n1 < 2 ^ 128
    · rw [if_pos (show n0 * n1 < U128_MOD from hp), if_neg (Nat.not_le.mpr hp)]
      show (if ru = true ∧ 0 < (n0 * n1) &&& Q64_MASK then
              if (n0 * n1) >>> Q64_RESOLUTION = U64_MAX then
                Except.error ErrorCode.MultiplicationOverflow
              else Except.ok ((n0 * n1) >>> Q64_RESOLUTION + 1)
            else Except.ok ((n0 * n1) >>> Q64_RESOLUTION)) = _
      rw [hmask, hshift]
      by_cases hr : ru = true ∧ 0 < (n0 * n1) % 2 ^ 64
      · by_cases hmax : (n0 * n1) / 2 ^ 64 = U64_MAX
        · rw [if_pos hr, if_pos hmax, if_pos ⟨hr.1, hr.2, hmax⟩]
        · rw [if_pos hr, if_neg hmax,
            if_neg (fun h => hmax h.2.2), if_pos hr]
      · rw [if_neg hr, if_neg (fun h => hr ⟨h.1, h.2.1⟩), if_neg hr]
    · rw [if_neg (show ¬ n0 * n1 < U128_MOD from hp), if_pos (Nat.not_lt.mp hp)]

/-- C1 (corrected): at `n0 = n1 = d = 2 ^ 64` the mathematical result
`n0 * n1 / d = 2 ^ 64` fits in 128 bits, yet the call fails with
`MulDivOverflow`, because the product is carried in 128 bits
(`u128::checked_mul`), not in a double-width 256-bit intermediate. -/
theorem claim_C1_counterexample :
    2 ^ 64 * 2 ^ 64 / 2 ^ 64 < 2 ^ 128 ∧
    checked_mul_div_round_up_if (2 ^ 64) (2 ^ 64) (2 ^ 64) false
      = .error .MulDivOverflow := by
  constructor
  · decide
  · decide

/-- C1 (amended): `checked_mul_div_round_up_if` succeeds with the floor
(resp. ceiling) of `n0 * n1 / d` exactly when `d ≠ 0` and the 128×128
product itself fits in 128 bits; it fails `DivideByZero` exactly when
`d = 0`, and `MulDivOverflow` exactly when `d ≠ 0` and
`n0 * n1 ≥ 2 ^ 128`, even when the final result would fit. -/
theorem claim_C1 (n0 n1 d : Nat) (ru : Bool) :
    checked_mul_div_round_up_if n0 n1 d ru =
      if d = 0 then .error .DivideByZero
      else if 2 ^ 128 ≤ n0 * n1 then .error .MulDivOverflow
      else .ok (ceil_div_if (n0 * n1) d ru) :=
  checked_mul_div_round_up_if_eq n0 n1 d ru

/-- C5: when both the rounding-up and the rounding-down calls succeed,
the rounded-up result dominates, with equality exactly when `d`
divides `n0 * n1`. -/
theorem claim_C5 (n0 n1 d u v : Nat)
    (hu : checked_mul_div_round_up_if n0 n1 d true = .ok u)
    (hv : checked_mul_div_round_up_if n0 n1 d false = .ok v) :
    v ≤ u ∧ (u = v ↔ d ∣ n0 * n1) := by
  rw [checked_mul_div_round_up_if_eq] at hu hv
  by_cases hd : d = 0
  · rw [if_pos hd] at hu
    exact Except.noConfusion hu
  · rw [if_neg hd] at hu hv
    by_cases hp : 2 ^ 128 ≤ n0 * n1
    · rw [if_pos hp] at hu
      exact Except.noConfusion hu
    · rw [if_neg hp] at hu hv
      have hu2 : ceil_div_if (n0 * n1) d true = u := Except.ok.inj hu
      have hv2 : ceil_div_if (n0 * n1) d false = v := Except.ok.inj hv
      have hdvd : d ∣ n0 * n1 ↔ n0 * n1 % d = 0 := Nat.dvd_iff_mod_eq_zero
      rw [ceil_div_if] at hu2 hv2
      by_cases hr : 0 < n0 * n1 % d
      · rw [if_pos ⟨rfl, hr⟩] at hu2
        rw [if_neg (by simp)] at hv2
        subst hu2 hv2
        refine ⟨Nat.le_succ _, ?_, ?_⟩
        · intro h; omega
        · intro h; rw [hdvd] at h; omega
      · rw [if_neg (fun h => hr h.2)] at hu2
        rw [if_neg (by simp)] at hv2
        subst hu2 hv2
        exact ⟨Nat.le_refl _, fun _ => hdvd.mpr (by omega), fun _ => rfl⟩

/-- Closed-form witness for C5 at `n0 = 7`, `n1 = 3`, `d = 2`. -/
theorem claim_C5_witness : 10 ≤ 11 ∧ (11 = 10 ↔ 2 ∣ 7 * 3) :=
  claim_C5 7 3 2 11 10 (by decide) (by decide)

/-- C7: `checked_mul_shift_right_round_up_if` returns the truncation
`⌊n0 * n1 / 2 ^ 64⌋`, incremented by one when rounding up and the 64
discarded low bits are nonzero; it fails exactly when the truncated
result does not fit in 64 bits (the product is at least `2 ^ 128`) or
when the requested round-up would carry past the 64-bit boundary. -/
theorem claim_C7 (n0 n1 : Nat) (ru : Bool) :
    checked_mul_shift_right_round_up_if n0 n1 ru =
      if 2 ^ 128 ≤ n0 * n1 then .error .MultiplicationShiftRightOverflow
      else if ru ∧ 0 < n0 * n1 % 2 ^ 64 ∧ n0 * n1 / 2 ^ 64 = U64_MAX then
        .error .MultiplicationOverflow
      else .ok (if ru ∧ 0 < n0 * n1 % 2 ^ 64 then n0 * n1 / 2 ^ 64 + 1
                else n0 * n1 / 2 ^ 64) :=
  checked_mul_shift_right_round_up_if_eq n0 n1 ru

/-- C9: a zero divisor always yields `DivideByZero`; the check precedes
the multiplication, so this holds even when `n0 * n1` overflows. -/
theorem claim_C9 (n0 n1 : Nat) (ru : Bool) :
    checked_mul_div_round_up_if n0 n1 0 ru = .error .DivideByZero := rfl

/-- C10: with `amount = 0`, `get_next_sqrt_price_from_a_round_up`
returns the input price unchanged for every liquidity (including zero)
and every price (including values outside the global sqrt-price
bounds), before any divide-by-zero or bounds check. -/
theorem claim_C10 (sqrt_price liquidity : Nat) (amount_specified_is_input : Bool) :
    get_next_sqrt_price_from_a_round_up sqrt_price liquidity 0
      amount_specified_is_input = .ok sqrt_price := rfl

/-- The two square-root-price arguments are normalized into increasing
order, symmetrically in the argument order. -/
theorem increasing_price_order_comm (a b : Nat) :
    increasing_price_order a b = increasing_price_order b a := by
  unfold increasing_price_order
  split <;> split <;> (first | rfl | (congr 1 <;> omega))

/-- C8: `get_amount_delta_a` and `get_amount_delta_b` are symmetric in
their two square-root-price arguments: swapping them yields the
identical result, `Ok` value or error alike. -/
theorem claim_C8 (sqrt_price_0 sqrt_price_1 liquidity : Nat) (ru : Bool) :
    get_amount_delta_a sqrt_price_0 sqrt_price_1 liquidity ru
        = get_amount_delta_a sqrt_price_1 sqrt_price_0 liquidity ru ∧
    get_amount_delta_b sqrt_price_0 sqrt_price_1 liquidity ru
        = get_amount_delta_b sqrt_price_1 sqrt_price_0 liquidity ru := by
  constructor
  · unfold get_amount_delta_a
    rw [increasing_price_order_comm]
  · unfold get_amount_delta_b
    rw [increasing_price_order_comm]

/-- Characterization of `get_next_sqrt_price_from_b_round_down` for
nonzero liquidity: the price delta is `(amount << 64) / liquidity`,
rounded down when fixing input and up when fixing output, and the
only failure is `SqrtPriceOutOfBounds` on 128-bit overflow/underflow
of the final addition/subtraction. -/
theorem get_next_sqrt_price_from_b_eq (sp L amount : Nat) (aii : Bool)
    (hL : L ≠ 0) :
    get_next_sqrt_price_from_b_round_down sp L amount aii =
      (if aii then
         if sp + amount * 2 ^ 64 / L < 2 ^ 128 then
           .ok (sp + amount * 2 ^ 64 / L)
         else .error .SqrtPriceOutOfBounds
       else
         if ceil_div_if (amount * 2 ^ 64) L true ≤ sp then
           .ok (sp - ceil_div_if (amount * 2 ^ 64) L true)
         else .error .SqrtPriceOutOfBounds) := by
  have hsl : amount <<< Q64_RESOLUTION = amount * 2 ^ 64 := Nat.shiftLeft_eq amount 64
  unfold get_next_sqrt_price_from_b_round_down
  simp only [hsl]
  cases aii
  · split
    next e heq =>
      unfold div_round_up_if at heq
      rw [if_neg hL] at heq
      exact Except.noConfusion heq
    next delta heq =>
      unfold div_round_up_if at heq
      rw [if_neg hL, Bool.not_false] at heq
      have hdelta : delta = ceil_div_if (amount * 2 ^ 64) L true := by
        rw [ceil_div_if]
        exact (Except.ok.inj heq).symm
      subst hdelta
      rw [if_neg (by decide : ¬ false = true), if_neg (by decide : ¬ false = true)]
      unfold u128_checked_sub
      by_cases hd : ceil_div_if (amount * 2 ^ 64) L true ≤ sp
      · rw [if_pos hd, if_pos hd]
      · rw [if_neg hd, if_neg hd]
  · split
    next e heq =>
      unfold div_round_up_if at heq
      rw [if_neg hL] at heq
      exact Except.noConfusion heq
    next delta heq =>
      unfold div_round_up_if at heq
      rw [if_neg hL, Bool.not_true,
        if_neg (fun h => Bool.noConfusion h.1)] at heq
      have hdelta : delta = amount * 2 ^ 64 / L := (Except.ok.inj heq).symm
      subst hdelta
      rw [if_pos rfl, if_pos rfl]
      unfold u128_checked_add U128_MOD
      by_cases hd : sp + amount * 2 ^ 64 / L < 2 ^ 128
      · rw [if_pos hd, if_pos hd]
      · rw [if_neg hd, if_neg hd]

/-- C3: fixing token B (`amount_specified_is_input ≠ a_to_b`) with
positive liquidity, `get_next_sqrt_price` returns
`sqrt_price + (amount << 64) / liquidity` when the amount is input and
`sqrt_price - (amount << 64) / liquidity` when it is output, the
division rounding up exactly when fixing output and down when fixing
input; it fails `SqrtPriceOutOfBounds` exactly when the final addition
overflows `u128` or the subtraction underflows below zero. -/
theorem claim_C3 (sqrt_price liquidity amount : Nat)
    (amount_specified_is_input a_to_b : Bool) (hL : 0 < liquidity)
    (hne : amount_specified_is_input ≠ a_to_b) :
    get_next_sqrt_price sqrt_price liquidity amount amount_specified_is_input
        a_to_b =
      (if amount_specified_is_input then
         if sqrt_price + amount * 2 ^ 64 / liquidity < 2 ^ 128 then
           .ok (sqrt_price + amount * 2 ^ 64 / liquidity)
         else .error .SqrtPriceOutOfBounds
       else
         if ceil_div_if (amount * 2 ^ 64) liquidity true ≤ sqrt_price then
           .ok (sqrt_price - ceil_div_if (amount * 2 ^ 64) liquidity true)
         else .error .SqrtPriceOutOfBounds) := by
  unfold get_next_sqrt_price
  rw [if_neg hne]
  exact get_next_sqrt_price_from_b_eq sqrt_price liquidity amount
    amount_specified_is_input (Nat.pos_iff_ne_zero.mp hL)

/-- Closed-form witness for C3, fixing B as input at price `2 ^ 64`,
liquidity 10, amount 3. -/
theorem claim_C3_witness :
    0 < 10 ∧ ((true : Bool) ≠ false) ∧
    get_next_sqrt_price (2 ^ 64) 10 3 true false
      = .ok (2 ^ 64 + 3 * 2 ^ 64 / 10) :=
  ⟨by decide, by decide,
    (claim_C3 (2 ^ 64) 10 3 true false (by decide) (by decide)).trans (by decide)⟩

/-- Characterization of `div_round_up_if_u256` when rounding up: it
returns the ceiling of `n / d` narrowed to 128 bits, failing with the
narrowing-cast error when the ceiling does not fit. -/
theorem div_round_up_if_u256_eq (n d : Nat) :
    div_round_up_if_u256 n d true =
      if 2 ^ 128 ≤ ceil_div_if n d true then .error .NumberCastError
      else .ok (ceil_div_if n d true) := by
  simp only [div_round_up_if_u256, U256Muldiv.div, U256Muldiv.try_into_u128,
    U256Muldiv.add, U256Muldiv.new, U256Muldiv.is_zero, U128_MOD, ceil_div_if,
    Nat.zero_mul, Nat.zero_add]
  by_cases hr : 0 < n % d
  · rw [if_pos (show True ∧ ¬ n % d = 0 from ⟨trivial, by omega⟩),
      if_pos (show True ∧ 0 < n % d from ⟨trivial, hr⟩)]
    by_cases hq : n / d + 1 < 2 ^ 128
    · rw [if_pos hq, if_neg (by omega)]
    · rw [if_neg hq, if_pos (by omega)]
  · rw [if_neg (show ¬ (True ∧ ¬ n % d = 0) from fun h => h.2 (by omega)),
      if_neg (show ¬ (True ∧ 0 < n % d) from fun h => hr h.2)]
    by_cases hq : n / d < 2 ^ 128
    · rw [if_pos hq, if_neg (by omega)]
    · rw [if_neg hq, if_pos (by omega)]

/-- Characterization of `get_next_sqrt_price_from_a_round_up` for a
nonzero amount, liquidity below `2 ^ 128`, and a product
`liquidity * sqrt_price` below `2 ^ 192` (so that the 256-bit word
shift of the numerator succeeds). -/
theorem get_next_sqrt_price_from_a_eq (sp L amount : Nat) (aii : Bool)
    (hL : L < 2 ^ 128) (ham : amount ≠ 0) (hshift : L * sp < 2 ^ 192) :
    get_next_sqrt_price_from_a_round_up sp L amount aii =
      (if ¬ aii ∧ L * 2 ^ 64 ≤ sp * amount then .error .DivideByZero
       else
         if 2 ^ 128 ≤ ceil_div_if (L * sp * 2 ^ 64)
             (if aii then L * 2 ^ 64 + sp * amount
              else L * 2 ^ 64 - sp * amount) true then
           .error .NumberCastError
         else if ceil_div_if (L * sp * 2 ^ 64)
             (if aii then L * 2 ^ 64 + sp * amount
              else L * 2 ^ 64 - sp * amount) true < MIN_SQRT_PRICE_X64 then
           .error .TokenMinSubceeded
         else if MAX_SQRT_PRICE_X64 < ceil_div_if (L * sp * 2 ^ 64)
             (if aii then L * 2 ^ 64 + sp * amount
              else L * 2 ^ 64 - sp * amount) true then
           .error .TokenMaxExceeded
         else .ok (ceil_div_if (L * sp * 2 ^ 64)
             (if aii then L * 2 ^ 64 + sp * amount
              else L * 2 ^ 64 - sp * amount) true)) := by
  have hb : L * sp * 2 ^ 64 < U256_MOD := by
    calc L * sp * 2 ^ 64 < 2 ^ 192 * 2 ^ 64 :=
          (Nat.mul_lt_mul_right (by norm_num)).mpr hshift
      _ = 2 ^ 256 := by norm_num
  have hlsl : U256Muldiv.shift_word_left (U256Muldiv.new 0 L) = L * 2 ^ 64 := by
    unfold U256Muldiv.shift_word_left U256Muldiv.new
    simp only [Nat.zero_mul, Nat.zero_add]
    exact Nat.mod_eq_of_lt (by
      calc L * 2 ^ 64 < 2 ^ 128 * 2 ^ 64 := (Nat.mul_lt_mul_right (by norm_num)).mpr hL
        _ < 2 ^ 256 := by norm_num)
  simp only [get_next_sqrt_price_from_a_round_up, mul_u256]
  rw [if_neg ham, hlsl]
  split
  next heq =>
    unfold U256Muldiv.checked_shift_word_left at heq
    rw [if_pos hb] at heq
    exact Option.noConfusion heq
  next numerator heq =>
    unfold U256Muldiv.checked_shift_word_left at heq
    rw [if_pos hb] at heq
    have hnumeq : numerator = L * sp * 2 ^ 64 := (Option.some.inj heq).symm
    subst hnumeq
    simp only [U256Muldiv.lte, U256Muldiv.add, U256Muldiv.sub, decide_eq_true_eq]
    by_cases hout : ¬ aii = true ∧ L * 2 ^ 64 ≤ sp * amount
    · rw [if_pos hout, if_pos hout]
    · rw [if_neg hout, if_neg hout, div_round_up_if_u256_eq]
      by_cases hq : 2 ^ 128 ≤ ceil_div_if (L * sp * 2 ^ 64)
          (if aii = true then L * 2 ^ 64 + sp * amount
           else L * 2 ^ 64 - sp * amount) true
      · rw [if_pos hq, if_pos hq]
      · rw [if_neg hq, if_neg hq]

/-- C2 (counterexample): at `sqrt_price = 2 ^ 127`,
`liquidity = 2 ^ 65`, `amount = 4`, fixing output
(`amount_specified_is_input = a_to_b = false`), the claim's "fails
DivideByZero exactly when `liquidity << 64 ≤ amount * sqrt_price`"
condition holds, yet the call fails with `MultiplicationOverflow`:
the 256-bit word shift of `liquidity * sqrt_price = 2 ^ 192` fails
before the denominator check is reached. -/
theorem claim_C2_counterexample :
    2 ^ 65 * 2 ^ 64 ≤ 4 * 2 ^ 127 ∧
    get_next_sqrt_price (2 ^ 127) (2 ^ 65) 4 false false
      ≠ .error .DivideByZero ∧
    get_next_sqrt_price (2 ^ 127) (2 ^ 65) 4 false false
      = .error .MultiplicationOverflow := by
  refine ⟨by decide, by decide, by decide⟩

/-- C2 (amended): fixing token A with `amount > 0`, provided
`liquidity * sqrt_price < 2 ^ 192` (otherwise the 256-bit numerator
shift fails with `MultiplicationOverflow` before any other check),
`get_next_sqrt_price` fails `DivideByZero` exactly when fixing output
and `liquidity << 64 ≤ amount * sqrt_price`; otherwise it computes
`(liquidity * sqrt_price << 64) / (liquidity << 64 ± amount * sqrt_price)`
rounded up, fails with the narrowing-cast error when that value does
not fit in 128 bits, fails `TokenMinSubceeded` when it is below
`MIN_SQRT_PRICE_X64`, fails `TokenMaxExceeded` when it is above
`MAX_SQRT_PRICE_X64`, and returns it otherwise. -/
theorem claim_C2 (sqrt_price liquidity amount : Nat)
    (amount_specified_is_input a_to_b : Bool)
    (hfix : amount_specified_is_input = a_to_b)
    (hL : liquidity < 2 ^ 128) (ham : 0 < amount)
    (hshift : liquidity * sqrt_price < 2 ^ 192) :
    get_next_sqrt_price sqrt_price liquidity amount amount_specified_is_input
        a_to_b =
      (if ¬ amount_specified_is_input ∧
          liquidity * 2 ^ 64 ≤ sqrt_price * amount then .error .DivideByZero
       else
         if 2 ^ 128 ≤ ceil_div_if (liquidity * sqrt_price * 2 ^ 64)
             (if amount_specified_is_input then
                liquidity * 2 ^ 64 + sqrt_price * amount
              else liquidity * 2 ^ 64 - sqrt_price * amount) true then
           .error .NumberCastError
         else if ceil_div_if (liquidity * sqrt_price * 2 ^ 64)
             (if amount_specified_is_input then
                liquidity * 2 ^ 64 + sqrt_price * amount
              else liquidity * 2 ^ 64 - sqrt_price * amount) true
             < MIN_SQRT_PRICE_X64 then
           .error .TokenMinSubceeded
         else if MAX_SQRT_PRICE_X64 < ceil_div_if (liquidity * sqrt_price * 2 ^ 64)
             (if amount_specified_is_input then
                liquidity * 2 ^ 64 + sqrt_price * amount
              else liquidity * 2 ^ 64 - sqrt_price * amount) true then
           .error .TokenMaxExceeded
         else .ok (ceil_div_if (liquidity * sqrt_price * 2 ^ 64)
             (if amount_specified_is_input then
                liquidity * 2 ^ 64 + sqrt_price * amount
              else liquidity * 2 ^ 64 - sqrt_price * amount) true)) := by
  unfold get_next_sqrt_price
  rw [if_pos hfix]
  exact get_next_sqrt_price_from_a_eq sqrt_price liquidity amount
    amount_specified_is_input hL (Nat.pos_iff_ne_zero.mp ham) hshift

/-- Closed-form witness for C2 (amended), fixing A as input at price
`2 ^ 64`, liquidity 100, amount 5. -/
theorem claim_C2_witness :
    ((true : Bool) = true) ∧ 100 < 2 ^ 128 ∧ 0 < 5 ∧
    100 * 2 ^ 64 < 2 ^ 192 ∧
    get_next_sqrt_price (2 ^ 64) 100 5 true true
      = .ok (ceil_div_if (100 * 2 ^ 64 * 2 ^ 64) (100 * 2 ^ 64 + 2 ^ 64 * 5) true) :=
  ⟨rfl, by decide, by decide, by decide,
    (claim_C2 (2 ^ 64) 100 5 true true rfl (by decide) (by decide)
      (by decide)).trans (by decide)⟩

/-- `increasing_price_order` is the identity on an already sorted
pair. -/
theorem increasing_price_order_of_le (lo hi : Nat) (h : lo ≤ hi) :
    increasing_price_order lo hi = (lo, hi) := by
  unfold increasing_price_order
  rw [if_neg (Nat.not_lt.mpr h)]

/-- Rounded division (`ceil_div_if`) is monotone along cross-multiplied
fraction inequalities: if `a / b ≤ c / d` holds as exact fractions
(`a * d ≤ c * b`), the rounded quotients compare the same way, for
either rounding direction. -/
theorem ceil_div_if_mono (a b c d : Nat) (ru : Bool) (hb : 0 < b) (hd : 0 < d)
    (h : a * d ≤ c * b) : ceil_div_if a b ru ≤ ceil_div_if c d ru := by
  have hfloor : a / b ≤ c / d := by
    rw [Nat.le_div_iff_mul_le hd]
    have h1 : a / b * d * b ≤ c * b := by
      calc a / b * d * b = a / b * b * d := by ring
        _ ≤ a * d := Nat.mul_le_mul_right d (Nat.div_mul_le_self a b)
        _ ≤ c * b := h
    exact Nat.le_of_mul_le_mul_right h1 hb
  cases ru
  · simpa [ceil_div_if] using hfloor
  · rw [ceil_div_if, ceil_div_if]
    by_cases har : 0 < a % b
    · rw [if_pos ⟨rfl, har⟩]
      by_cases hcr : 0 < c % d
      · rw [if_pos ⟨rfl, hcr⟩]
        exact Nat.succ_le_succ hfloor
      · rw [if_neg (fun hh => hcr hh.2)]
        have hcd : c % d = 0 := by omega
        have ha2 : a ≤ c / d * b := by
          have hstep : a * d ≤ (c / d * b) * d := by
            calc a * d ≤ c * b := h
              _ = (d * (c / d) + c % d) * b := by rw [Nat.div_add_mod]
              _ = (c / d * b) * d := by rw [hcd]; ring
          exact Nat.le_of_mul_le_mul_right hstep hd
        have ha3 : b * (a / b) + a % b = a := Nat.div_add_mod a b
        by_contra hcon
        have hcon2 : c / d ≤ a / b := by
          rcases Nat.lt_or_ge (c / d) (a / b + 1) with hlt | hge
          · exact Nat.lt_succ_iff.mp hlt
          · exact absurd hge hcon
        have hmul : c / d * b ≤ a / b * b := Nat.mul_le_mul_right b hcon2
        have hcomm : a / b * b = b * (a / b) := Nat.mul_comm _ _
        linarith
    · rw [if_neg (fun hh => har hh.2)]
      by_cases hcr : 0 < c % d
      · rw [if_pos ⟨rfl, hcr⟩]
        exact Nat.le_succ_of_le hfloor
      · rw [if_neg (fun hh => hcr hh.2)]
        exact hfloor

/-- If `get_amount_delta_a` succeeds on a sorted price pair, its value
is the quotient `liquidity * (hi - lo) * 2 ^ 64 / (hi * lo)`, rounded
according to the flag. -/
theorem get_amount_delta_a_ok (lo hi L a : Nat) (ru : Bool) (h : lo ≤ hi)
    (hok : get_amount_delta_a lo hi L ru = .ok a) :
    a = ceil_div_if (L * (hi - lo) * 2 ^ 64) (hi * lo) ru := by
  simp only [get_amount_delta_a, increasing_price_order_of_le lo hi h, mul_u256,
    U256Muldiv.div, U256Muldiv.add, U256Muldiv.new, U256Muldiv.is_zero,
    U256Muldiv.try_into_u128, U128_MOD, Nat.zero_mul, Nat.zero_add] at hok
  split at hok
  · exact Except.noConfusion hok
  next numerator heq =>
    unfold U256Muldiv.checked_shift_word_left at heq
    by_cases hsh : L * (hi - lo) * 2 ^ 64 < U256_MOD
    · rw [if_pos hsh] at heq
      have hnum : numerator = L * (hi - lo) * 2 ^ 64 := (Option.some.inj heq).symm
      subst hnum
      rw [ceil_div_if]
      by_cases hround : ru = true ∧ 0 < L * (hi - lo) * 2 ^ 64 % (hi * lo)
      · rw [if_pos hround]
        rw [if_pos (show ru = true ∧ ¬ L * (hi - lo) * 2 ^ 64 % (hi * lo) = 0 from
          ⟨hround.1, by omega⟩)] at hok
        by_cases hq : L * (hi - lo) * 2 ^ 64 / (hi * lo) + 1 < 2 ^ 128
        · rw [if_pos hq] at hok
          simp only [] at hok
          by_cases hm : L * (hi - lo) * 2 ^ 64 / (hi * lo) + 1 > U64_MAX
          · rw [if_pos hm] at hok
            exact Except.noConfusion hok
          · rw [if_neg hm] at hok
            exact (Except.ok.inj hok).symm
        · rw [if_neg hq] at hok
          simp only [] at hok
          exact Except.noConfusion hok
      · rw [if_neg hround]
        rw [if_neg (show ¬ (ru = true ∧ ¬ L * (hi - lo) * 2 ^ 64 % (hi * lo) = 0)
          from fun hc => hround ⟨hc.1, Nat.pos_of_ne_zero hc.2⟩)] at hok
        by_cases hq : L * (hi - lo) * 2 ^ 64 / (hi * lo) < 2 ^ 128
        · rw [if_pos hq] at hok
          simp only [] at hok
          by_cases hm : L * (hi - lo) * 2 ^ 64 / (hi * lo) > U64_MAX
          · rw [if_pos hm] at hok
            exact Except.noConfusion hok
          · rw [if_neg hm] at hok
            exact (Except.ok.inj hok).symm
        · rw [if_neg hq] at hok
          simp only [] at hok
          exact Except.noConfusion hok
    · rw [if_neg hsh] at heq
      exact Option.noConfusion heq

/-- If `get_amount_delta_b` succeeds on a sorted price pair, its value
is `liquidity * (hi - lo)` shifted right by 64 bits, rounded according
to the flag. -/
theorem get_amount_delta_b_ok (lo hi L b : Nat) (ru : Bool) (h : lo ≤ hi)
    (hok : get_amount_delta_b lo hi L ru = .ok b) :
    b = ceil_div_if (L * (hi - lo)) (2 ^ 64) ru := by
  simp only [get_amount_delta_b, increasing_price_order_of_le lo hi h] at hok
  rw [checked_mul_shift_right_round_up_if_eq] at hok
  by_cases hp : 2 ^ 128 ≤ L * (hi - lo)
  · rw [if_pos hp] at hok
    exact Except.noConfusion hok
  · rw [if_neg hp] at hok
    by_cases hm : ru = true ∧ 0 < L * (hi - lo) % 2 ^ 64 ∧
        L * (hi - lo) / 2 ^ 64 = U64_MAX
    · rw [if_pos hm] at hok
      exact Except.noConfusion hok
    · rw [if_neg hm] at hok
      rw [ceil_div_if]
      exact (Except.ok.inj hok).symm

/-- Widening a price interval can only increase the token-A fraction:
`(hi1 - lo1) / (hi1 * lo1) ≤ (hi2 - lo2) / (hi2 * lo2)` as a
cross-multiplied inequality, for nested intervals. -/
theorem amount_a_cross (lo1 hi1 lo2 hi2 : Nat) (h1 : lo2 ≤ lo1) (h2 : lo1 ≤ hi1)
    (h3 : hi1 ≤ hi2) : (hi1 - lo1) * (hi2 * lo2) ≤ (hi2 - lo2) * (hi1 * lo1) := by
  have h4 : lo2 ≤ hi2 := Nat.le_trans (Nat.le_trans h1 h2) h3
  zify [h2, h4]
  nlinarith [mul_nonneg (mul_nonneg (Nat.cast_nonneg (α := ℤ) hi1)
      (Nat.cast_nonneg (α := ℤ) hi2))
      (sub_nonneg.mpr (show (lo2 : ℤ) ≤ (lo1 : ℤ) from Nat.cast_le.mpr h1)),
    mul_nonneg (mul_nonneg (Nat.cast_nonneg (α := ℤ) lo1)
      (Nat.cast_nonneg (α := ℤ) lo2))
      (sub_nonneg.mpr (show (hi1 : ℤ) ≤ (hi2 : ℤ) from Nat.cast_le.mpr h3))]

/-- C6: on sorted valid price arguments, `get_amount_delta_a` and
`get_amount_delta_b` are monotonically non-decreasing in the liquidity
(prices and rounding flag fixed) and in the width of the price
interval (raising the higher price or lowering the lower price never
decreases the returned amount), whenever both compared calls
succeed. -/
theorem claim_C6 :
    (∀ lo hi L1 L2 a1 a2 : Nat, ∀ ru : Bool, 1 ≤ lo → lo ≤ hi → L1 ≤ L2 →
      get_amount_delta_a lo hi L1 ru = .ok a1 →
      get_amount_delta_a lo hi L2 ru = .ok a2 → a1 ≤ a2) ∧
    (∀ lo1 hi1 lo2 hi2 L a1 a2 : Nat, ∀ ru : Bool, 1 ≤ lo2 → lo2 ≤ lo1 →
      lo1 ≤ hi1 → hi1 ≤ hi2 →
      get_amount_delta_a lo1 hi1 L ru = .ok a1 →
      get_amount_delta_a lo2 hi2 L ru = .ok a2 → a1 ≤ a2) ∧
    (∀ lo hi L1 L2 b1 b2 : Nat, ∀ ru : Bool, lo ≤ hi → L1 ≤ L2 →
      get_amount_delta_b lo hi L1 ru = .ok b1 →
      get_amount_delta_b lo hi L2 ru = .ok b2 → b1 ≤ b2) ∧
    (∀ lo1 hi1 lo2 hi2 L b1 b2 : Nat, ∀ ru : Bool, lo2 ≤ lo1 →
      lo1 ≤ hi1 → hi1 ≤ hi2 →
      get_amount_delta_b lo1 hi1 L ru = .ok b1 →
      get_amount_delta_b lo2 hi2 L ru = .ok b2 → b1 ≤ b2) := by
  refine ⟨?_, ?_, ?_, ?_⟩
  · intro lo hi L1 L2 a1 a2 ru hlo hle hL h1 h2
    rw [get_amount_delta_a_ok lo hi L1 a1 ru hle h1,
        get_amount_delta_a_ok lo hi L2 a2 ru hle h2]
    refine ceil_div_if_mono _ _ _ _ ru (Nat.mul_pos (by omega) (by omega))
      (Nat.mul_pos (by omega) (by omega)) ?_
    exact Nat.mul_le_mul_right _
      (Nat.mul_le_mul_right _ (Nat.mul_le_mul_right _ hL))
  · intro lo1 hi1 lo2 hi2 L a1 a2 ru hlo h1 h2 h3 hok1 hok2
    rw [get_amount_delta_a_ok lo1 hi1 L a1 ru h2 hok1,
        get_amount_delta_a_ok lo2 hi2 L a2 ru
          (Nat.le_trans (Nat.le_trans h1 h2) h3) hok2]
    refine ceil_div_if_mono _ _ _ _ ru (Nat.mul_pos (by omega) (by omega))
      (Nat.mul_pos (by omega) (by omega)) ?_
    calc L * (hi1 - lo1) * 2 ^ 64 * (hi2 * lo2)
        = L * 2 ^ 64 * ((hi1 - lo1) * (hi2 * lo2)) := by ring
      _ ≤ L * 2 ^ 64 * ((hi2 - lo2) * (hi1 * lo1)) :=
          Nat.mul_le_mul_left _ (amount_a_cross lo1 hi1 lo2 hi2 h1 h2 h3)
      _ = L * (hi2 - lo2) * 2 ^ 64 * (hi1 * lo1) := by ring
  · intro lo hi L1 L2 b1 b2 ru hle hL h1 h2
    rw [get_amount_delta_b_ok lo hi L1 b1 ru hle h1,
        get_amount_delta_b_ok lo hi L2 b2 ru hle h2]
    exact ceil_div_if_mono _ _ _ _ ru (by positivity) (by positivity)
      (Nat.mul_le_mul_right _ (Nat.mul_le_mul_right _ hL))
  · intro lo1 hi1 lo2 hi2 L b1 b2 ru h1 h2 h3 hok1 hok2
    rw [get_amount_delta_b_ok lo1 hi1 L b1 ru h2 hok1,
        get_amount_delta_b_ok lo2 hi2 L b2 ru
          (Nat.le_trans (Nat.le_trans h1 h2) h3) hok2]
    refine ceil_div_if_mono _ _ _ _ ru (by positivity) (by positivity) ?_
    exact Nat.mul_le_mul_right _ (Nat.mul_le_mul_left _ (by omega))

/-- Closed-form witness for C6, instantiating each of its four
monotonicity statements at concrete prices and liquidities. -/
theorem claim_C6_witness :
    2 ^ 31 ≤ 2 ^ 32 ∧ 2 ^ 31 ≤ 3 * 2 ^ 30 ∧ 5 ≤ 7 ∧ 5 ≤ 10 := by
  have h := claim_C6
  refine ⟨?_, ?_, ?_, ?_⟩
  · exact h.1 (2 ^ 64) (2 * 2 ^ 64) (2 ^ 32) (2 ^ 33) (2 ^ 31) (2 ^ 32) false
      (by decide) (by decide) (by decide) (by decide) (by decide)
  · exact h.2.1 (2 ^ 64) (2 * 2 ^ 64) (2 ^ 64) (4 * 2 ^ 64) (2 ^ 32)
      (2 ^ 31) (3 * 2 ^ 30) false (by decide) (by decide) (by decide)
      (by decide) (by decide) (by decide)
  · exact h.2.2.1 (2 ^ 64) (2 * 2 ^ 64) 5 7 5 7 false (by decide) (by decide)
      (by decide) (by decide)
  · exact h.2.2.2 (2 ^ 64) (2 * 2 ^ 64) (2 ^ 64) (3 * 2 ^ 64) 5 5 10 false
      (by decide) (by decide) (by decide) (by decide) (by decide)

/-- Modelled from the spec: the global minimum tick index
(`MIN_TICK_INDEX`, not among the provided sources); the spec names it
without giving its numeric value, taken here as the canonical bound. -/
def MIN_TICK_INDEX : Int := -443636

/-- Modelled from the spec: the global maximum tick index
(`MAX_TICK_INDEX`, not among the provided sources). -/
def MAX_TICK_INDEX : Int := 443636

/-- `TICK_ARRAY_SIZE` (the chunk capacity, spec §6: "fixed capacity,
e.g. 88 ticks per chunk"), as the `i32` the traversal multiplies by
the tick spacing. -/
def TICK_ARRAY_SIZE : Int := 88

/-- `TICK_ARRAY_SIZE` as a `usize`, for indexing the chunk's ticks. -/
def TICK_ARRAY_SIZE_USIZE : Nat := 88

/-- Modelled from the spec: a tick-array chunk (`state::TickArray`, not
among the provided sources) as its start tick index plus the
initialized flag of each of its `TICK_ARRAY_SIZE` ticks — the only
tick data the traversal of `swap_tick_sequence.rs` consults.  Offset
`o` holds the tick at index `start_tick_index + o * tick_spacing`. -/
structure TickArray where
  start_tick_index : Int
  initialized : List Bool

/-- Modelled from the spec: `TickArray::get_next_init_tick_index` scans
the chunk's local ticks starting at `tick_index` — inclusive and
toward decreasing indices when `a_to_b`, exclusive and toward
increasing indices otherwise — returning the first initialized tick
found, or `none` if the chunk is exhausted in that direction. -/
def TickArray.get_next_init_tick_index (ta : TickArray) (tick_index : Int)
    (tick_spacing : Nat) (a_to_b : Bool) : Option Int :=
  if a_to_b then
    ((List.range TICK_ARRAY_SIZE_USIZE).reverse.find? (fun o =>
        decide (ta.start_tick_index + (o * tick_spacing : Nat) ≤ tick_index) &&
        ta.initialized.getD o false)).map
      (fun o => ta.start_tick_index + (o * tick_spacing : Nat))
  else
    ((List.range TICK_ARRAY_SIZE_USIZE).find? (fun o =>
        decide (tick_index < ta.start_tick_index + (o * tick_spacing : Nat)) &&
        ta.initialized.getD o false)).map
      (fun o => ta.start_tick_index + (o * tick_spacing : Nat))

/-- Modelled from the spec: whether this chunk covers the global
minimum tick. -/
def TickArray.is_min_tick_array (ta : TickArray) : Bool :=
  decide (ta.start_tick_index ≤ MIN_TICK_INDEX)

/-- Modelled from the spec: whether this chunk covers the global
maximum tick. -/
def TickArray.is_max_tick_array (ta : TickArray) (tick_spacing : Nat) : Bool :=
  decide (MAX_TICK_INDEX < ta.start_tick_index + TICK_ARRAY_SIZE * (tick_spacing : Int))

/-- `swap_tick_sequence.rs::SwapTickSequence`: the loaded, adjacent
tick-array chunks in traversal order (one to three of them). -/
structure SwapTickSequence where
  arrays : List TickArray

/-- `swap_tick_sequence.rs::SwapTickSequence::get_next_initialized_tick_index`,
loop body.  The Rust loop advances `array_index` by one each iteration
and returns or fails as soon as `array_index` leaves the loaded
chunks, so it iterates at most `arrays.length + 1 - start_array_index`
times; the embedding makes that bound explicit as structural fuel,
and the fuel-exhausted value coincides with the out-of-bounds error
the loop would produce at that point. -/
def SwapTickSequence.get_next_initialized_tick_index_loop
    (s : SwapTickSequence) (tick_spacing : Nat) (a_to_b : Bool) :
    Nat → Int → Nat → Except ErrorCode (Nat × Int)
  | 0, _, _ => .error .TickArraySequenceInvalidIndex
  | fuel + 1, search_index, array_index =>
    match s.arrays[array_index]? with
    | none => .error .TickArraySequenceInvalidIndex
    | some next_array =>
      match next_array.get_next_init_tick_index search_index tick_spacing a_to_b with
      | some next_index => .ok (array_index, next_index)
      | none =>
        if a_to_b ∧ next_array.is_min_tick_array then
          .ok (array_index, MIN_TICK_INDEX)
        else if ¬ a_to_b ∧ next_array.is_max_tick_array tick_spacing then
          .ok (array_index, MAX_TICK_INDEX)
        else if array_index + 1 = s.arrays.length then
          if a_to_b then .ok (array_index, next_array.start_tick_index)
          else .ok (array_index,
            next_array.start_tick_index + TICK_ARRAY_SIZE * (tick_spacing : Int) - 1)
        else
          s.get_next_initialized_tick_index_loop tick_spacing a_to_b fuel
            (if a_to_b then next_array.start_tick_index - 1
             else next_array.start_tick_index + TICK_ARRAY_SIZE * (tick_spacing : Int) - 1)
            (array_index + 1)

/-- `swap_tick_sequence.rs::SwapTickSequence::get_next_initialized_tick_index`. -/
def SwapTickSequence.get_next_initialized_tick_index (s : SwapTickSequence)
    (tick_index : Int) (tick_spacing : Nat) (a_to_b : Bool)
    (start_array_index : Nat) : Except ErrorCode (Nat × Int) :=
  s.get_next_initialized_tick_index_loop tick_spacing a_to_b
    (s.arrays.length + 1 - start_array_index) tick_index start_array_index

/-- With sufficient fuel, the traversal loop always returns a result
(never the sequencing error) when started inside the loaded chunks:
every chunk either yields an initialized tick, a global bound, its own
boundary tick (when last), or hands over to the next chunk, and the
last chunk always returns. -/
theorem get_next_initialized_tick_index_loop_ok (s : SwapTickSequence)
    (ts : Nat) (ab : Bool) :
    ∀ fuel ti i, i < s.arrays.length → s.arrays.length + 1 - i ≤ fuel →
      ∃ r, s.get_next_initialized_tick_index_loop ts ab fuel ti i = .ok r := by
  intro fuel
  induction fuel with
  | zero => intro ti i hi hf; omega
  | succ fuel ih =>
    intro ti i hi hf
    simp only [SwapTickSequence.get_next_initialized_tick_index_loop]
    rw [List.getElem?_eq_getElem hi]
    simp only []
    cases hsearch : (s.arrays[i]).get_next_init_tick_index ti ts ab with
    | some t => exact ⟨(i, t), rfl⟩
    | none =>
      by_cases hmin : ab = true ∧ (s.arrays[i]).is_min_tick_array = true
      · rw [if_pos hmin]
        exact ⟨(i, MIN_TICK_INDEX), rfl⟩
      · rw [if_neg hmin]
        by_cases hmax : ¬ ab = true ∧ (s.arrays[i]).is_max_tick_array ts = true
        · rw [if_pos hmax]
          exact ⟨(i, MAX_TICK_INDEX), rfl⟩
        · rw [if_neg hmax]
          by_cases hlast : i + 1 = s.arrays.length
          · rw [if_pos hlast]
            by_cases hab : ab = true
            · rw [if_pos hab]
              exact ⟨(i, (s.arrays[i]).start_tick_index), rfl⟩
            · rw [if_neg hab]
              exact ⟨(i, (s.arrays[i]).start_tick_index
                + TICK_ARRAY_SIZE * (ts : Int) - 1), rfl⟩
          · rw [if_neg hlast]
            exact ih _ (i + 1) (by omega) (by omega)

/-- C4: over one to three loaded chunks and a nonzero tick spacing, the
traversal `get_next_initialized_tick_index` terminates and
(1) fails `TickArraySequenceInvalidIndex` exactly when the starting
chunk index is past the loaded chunks — with any chunk index inside
the loaded chunks it always returns a result, because every chunk
either yields a tick or advances, and the last chunk always returns;
(2) on a loaded chunk it returns the first initialized tick found in
direction `a_to_b` with its chunk index; otherwise, when the chunk is
exhausted, the global minimum tick index if the chunk is the
global-minimum chunk and `a_to_b`, the global maximum tick index if it
is the global-maximum chunk and not `a_to_b`, the chunk's own boundary
(its start tick when `a_to_b`, its last tick otherwise) if it is the
last loaded chunk, and otherwise recurses into the next chunk with
the search position reset to that chunk's near boundary. -/
theorem claim_C4 (s : SwapTickSequence) (ts : Nat) (ab : Bool)
    (hlen : 1 ≤ s.arrays.length ∧ s.arrays.length ≤ 3) (hts : ts ≠ 0) :
    (∀ ti i, s.arrays.length ≤ i →
      s.get_next_initialized_tick_index ti ts ab i
        = .error .TickArraySequenceInvalidIndex) ∧
    (∀ ti i, i < s.arrays.length →
      ∃ r, s.get_next_initialized_tick_index ti ts ab i = .ok r) ∧
    (∀ ti i arr, s.arrays[i]? = some arr →
      s.get_next_initialized_tick_index ti ts ab i =
        match arr.get_next_init_tick_index ti ts ab with
        | some t => .ok (i, t)
        | none =>
          if ab ∧ arr.is_min_tick_array then .ok (i, MIN_TICK_INDEX)
          else if ¬ ab ∧ arr.is_max_tick_array ts then .ok (i, MAX_TICK_INDEX)
          else if i + 1 = s.arrays.length then
            if ab then .ok (i, arr.start_tick_index)
            else .ok (i, arr.start_tick_index + TICK_ARRAY_SIZE * (ts : Int) - 1)
          else
            s.get_next_initialized_tick_index
              (if ab then arr.start_tick_index - 1
               else arr.start_tick_index + TICK_ARRAY_SIZE * (ts : Int) - 1)
              ts ab (i + 1)) := by
  refine ⟨?_, ?_, ?_⟩
  · intro ti i hi
    unfold SwapTickSequence.get_next_initialized_tick_index
    rcases Nat.lt_or_ge s.arrays.length i with hlt | hge
    · rw [show s.arrays.length + 1 - i = 0 from by omega]
      rfl
    · have hieq : i = s.arrays.length := by omega
      subst hieq
      rw [show s.arrays.length + 1 - s.arrays.length = 0 + 1 from by omega]
      simp only [SwapTickSequence.get_next_initialized_tick_index_loop]
      rw [List.getElem?_eq_none (Nat.le_refl _)]
  · intro ti i hi
    unfold SwapTickSequence.get_next_initialized_tick_index
    exact get_next_initialized_tick_index_loop_ok s ts ab _ ti i hi (Nat.le_refl _)
  · intro ti i arr harr
    have hi : i < s.arrays.length := by
      by_contra hcon
      rw [List.getElem?_eq_none (by omega)] at harr
      exact Option.noConfusion harr
    unfold SwapTickSequence.get_next_initialized_tick_index
    rw [show s.arrays.length + 1 - i = (s.arrays.length - i - 1) + 1 + 1 from by omega,
        show s.arrays.length + 1 - (i + 1) = (s.arrays.length - i - 1) + 1 from by omega]
    simp only [SwapTickSequence.get_next_initialized_tick_index_loop]
    rw [harr]

/-- Closed-form witness for C4: applying its error characterization to
a single loaded chunk (spacing 1, no initialized tick) queried at
chunk index 5, past the loaded chunks. -/
theorem claim_C4_witness :
    SwapTickSequence.get_next_initialized_tick_index
        ⟨[⟨0, List.replicate 88 false⟩]⟩ 50 1 true 5
      = .error .TickArraySequenceInvalidIndex :=
  (claim_C4 ⟨[⟨0, List.replicate 88 false⟩]⟩ 1 true ⟨by decide, by decide⟩
    (by decide)).1 50 5 (by decide)

